import Mathlib

/-!
# CheckMate — verification of the spec against the source

Shallow embedding of the CheckMate repository's core: the wire codec
(`common/src/server_command.rs`), the per-connection client state
(`server/src/client_state.rs`), the inter-task coordination layer
(`server/src/task_communication.rs`) and the watcher output classification
(`client/src/action/watch_action.rs`).

Rust strings are represented by their UTF-8 byte content (`List Nat`), wire
buffers by `List Nat` (each element a byte value). The decoder threads an index
through a fixed buffer in the source; the embedding threads the remaining
suffix, which is equivalent (`remaining = buffer.drop index`), and recovers
`bytes_used` as the length difference.

The common crate in the source tree still declares only tags 1–8, while its
callers (`client/src/action/list_clients_action.rs`,
`client/src/action/refresh_action.rs`, `server/src/main.rs`) already use the
`RefreshAllClients`, `ListClients` and `Clients` variants, so the extended
codec those callers compile against is missing from the tree; its three new
tags are modelled from the spec (§3 tag table) below, marked as such.
-/

namespace CheckMate

instance {ε α : Type} [DecidableEq ε] [DecidableEq α] : DecidableEq (Except ε α) :=
  fun a b =>
  match a, b with
  | .error e, .error f =>
    if h : e = f then .isTrue (by rw [h]) else .isFalse (by simp [h])
  | .error _, .ok _ => .isFalse (by simp)
  | .ok _, .error _ => .isFalse (by simp)
  | .ok x, .ok y =>
    if h : x = y then .isTrue (by rw [h]) else .isFalse (by simp [h])

/-- UTF-8 byte content of a Rust `String`. -/
abbrev RStr := List Nat

/-- Bytes of an ASCII string literal (for ASCII text, code points and UTF-8
bytes coincide); models the byte content of the Rust string literals used in
log and format strings. -/
def asciiBytes (s : String) : RStr := s.data.map Char.toNat

/-- Is `b` a UTF-8 continuation byte (`0x80..=0xBF`)? -/
def isUtf8Cont (b : Nat) : Bool := 0x80 ≤ b && b ≤ 0xBF

/-- The UTF-8 validity check performed by Rust's `String::from_utf8`
(RFC 3629: no overlong forms, no surrogates, code points ≤ `0x10FFFF`). -/
def isValidUtf8 : List Nat → Bool
  | [] => true
  | b :: rest =>
    if b ≤ 0x7F then isValidUtf8 rest
    else if b < 0xC2 then false
    else if b ≤ 0xDF then
      match rest with
      | b1 :: r => isUtf8Cont b1 && isValidUtf8 r
      | [] => false
    else if b ≤ 0xEF then
      match rest with
      | b1 :: b2 :: r =>
        (if b = 0xE0 then 0xA0 ≤ b1 && b1 ≤ 0xBF
         else if b = 0xED then 0x80 ≤ b1 && b1 ≤ 0x9F
         else isUtf8Cont b1) && isUtf8Cont b2 && isValidUtf8 r
      | _ => false
    else if b ≤ 0xF4 then
      match rest with
      | b1 :: b2 :: b3 :: r =>
        (if b = 0xF0 then 0x90 ≤ b1 && b1 ≤ 0xBF
         else if b = 0xF4 then 0x80 ≤ b1 && b1 ≤ 0x8F
         else isUtf8Cont b1) && isUtf8Cont b2 && isUtf8Cont b3 && isValidUtf8 r
      | _ => false
    else false

/-- `ServerCommand` from `common/src/server_command.rs`. Variants `Abort`
through `Refresh` are translated from the source enum; the last three variants
are *modelled from the spec*: the source tree's common crate lacks
`RefreshAllClients`, `ListClients` and `Clients` although its client and
server code already constructs and matches them, so the extended enum is
reconstructed from the spec's §3 tag table. -/
inductive ServerCommand
  | abort
  | setStatusOk
  | setStatusError (message : RStr)
  | getStatuses (includeNames : Bool)
  | refreshClientByName (name : RStr)
  | setName (name : RStr)
  | statuses (statuses : List RStr)
  | refresh
  | refreshAllClients
  | listClients
  | clients (clients : List RStr)
  deriving DecidableEq, Repr

/-- `ServerCommandError` from `common/src/server_command.rs`. -/
inductive ServerCommandError
  | tooFewBytes
  | invalidStringEncoding
  | invalidBoolean
  | unknownCommand
  deriving DecidableEq, Repr

/-- `ServerCommandParse` from `common/src/server_command.rs`. -/
structure ServerCommandParse where
  command : ServerCommand
  bytesUsed : Nat
  deriving DecidableEq, Repr

/-- Byte order used when a 4-byte count is reassembled into an integer.
`to_le_bytes` always produces little-endian; `from_ne_bytes` reads in the
platform's native order, so the decoder is parameterized by it. -/
inductive ByteOrder
  | littleEndian
  | bigEndian
  deriving DecidableEq, Repr

/-- The low four bytes of `usize::to_le_bytes` (`.to_le_bytes()[0..4]` in
`append_string` / `append_strings`): truncation of the count to 32 bits is
implicit. -/
def toLEBytes4 (n : Nat) : List Nat :=
  [n % 256, n / 256 % 256, n / 65536 % 256, n / 16777216 % 256]

/-- Reassemble a 4-byte slice into a 32-bit count (`u32::from_ne_bytes`):
the platform's byte order decides which end is least significant. -/
def dwordOfBytes (order : ByteOrder) (b : List Nat) : Nat :=
  match order, b with
  | .littleEndian, [b0, b1, b2, b3] => b0 + b1 * 256 + b2 * 65536 + b3 * 16777216
  | .bigEndian, [b0, b1, b2, b3] => b3 + b2 * 256 + b1 * 65536 + b0 * 16777216
  | _, _ => 0

/-- `append_string`: 4-byte little-endian length, then the UTF-8 bytes. -/
def appendString (s : RStr) : List Nat := toLEBytes4 s.length ++ s

/-- The concatenated encodings of a vector's strings (the loop body of
`append_strings`). -/
def stringsBody : List RStr → List Nat
  | [] => []
  | s :: tl => appendString s ++ stringsBody tl

/-- `append_strings`: 4-byte little-endian count, then each string. -/
def appendStrings (v : List RStr) : List Nat := toLEBytes4 v.length ++ stringsBody v

namespace ServerCommand

/-- `ID_ABORT` -/
def idAbort : Nat := 1
/-- `ID_SET_STATUS_OK` -/
def idSetStatusOk : Nat := 2
/-- `ID_SET_STATUS_ERROR` -/
def idSetStatusError : Nat := 3
/-- `ID_GET_STATUSES` -/
def idGetStatuses : Nat := 4
/-- `ID_REFRESH_CLIENT_BY_NAME` -/
def idRefreshClientByName : Nat := 5
/-- `ID_SET_NAME` -/
def idSetName : Nat := 6
/-- `ID_STATUSES` -/
def idStatuses : Nat := 7
/-- `ID_REFRESH` -/
def idRefresh : Nat := 8
/-- Modelled from the spec: tag 9, `RefreshAllClients` (§3 tag table). -/
def idRefreshAllClients : Nat := 9
/-- Modelled from the spec: tag 10, `ListClients` (§3 tag table). -/
def idListClients : Nat := 10
/-- Modelled from the spec: tag 11, `Clients` (§3 tag table). -/
def idClients : Nat := 11

/-- `ServerCommand::to_bytes`. Tags 1–8 are translated from the source; tags
9–11 are modelled from the spec (§3): `RefreshAllClients` and `ListClients`
carry no payload, `Clients` carries a string vector. -/
def toBytes : ServerCommand → List Nat
  | .abort => [idAbort]
  | .setStatusOk => [idSetStatusOk]
  | .setStatusError message => idSetStatusError :: appendString message
  | .getStatuses includeNames => [idGetStatuses, if includeNames then 1 else 0]
  | .refreshClientByName name => idRefreshClientByName :: appendString name
  | .setName name => idSetName :: appendString name
  | .statuses v => idStatuses :: appendStrings v
  | .refresh => [idRefresh]
  | .refreshAllClients => [idRefreshAllClients]
  | .listClients => [idListClients]
  | .clients v => idClients :: appendStrings v

end ServerCommand

/-- The `take_bytes` closure: fail with `TooFewBytes` when fewer than `count`
bytes remain, otherwise hand out the slice and advance. -/
def takeBytes (count : Nat) (rem : List Nat) :
    Except ServerCommandError (List Nat × List Nat) :=
  if count > rem.length then .error .tooFewBytes
  else .ok (rem.take count, rem.drop count)

/-- The `take_bool` closure: one byte, `0 ↦ false`, `1 ↦ true`, anything else
is `InvalidBoolean`. -/
def takeBool (rem : List Nat) : Except ServerCommandError (Bool × List Nat) :=
  match takeBytes 1 rem with
  | .error e => .error e
  | .ok (b, rem') =>
    match b with
    | [0] => .ok (false, rem')
    | [1] => .ok (true, rem')
    | _ => .error .invalidBoolean

/-- The `take_dword` closure: four bytes reassembled with
`u32::from_ne_bytes`, hence in the platform's byte order. -/
def takeDword (order : ByteOrder) (rem : List Nat) :
    Except ServerCommandError (Nat × List Nat) :=
  match takeBytes 4 rem with
  | .error e => .error e
  | .ok (b, rem') => .ok (dwordOfBytes order b, rem')

/-- The `take_string` closure: a dword length, that many bytes, then the
`String::from_utf8` validity check. -/
def takeString (order : ByteOrder) (rem : List Nat) :
    Except ServerCommandError (RStr × List Nat) :=
  match takeDword order rem with
  | .error e => .error e
  | .ok (size, rem') =>
    match takeBytes size rem' with
    | .error e => .error e
    | .ok (s, rem'') =>
      if isValidUtf8 s then .ok (s, rem'') else .error .invalidStringEncoding

/-- The `for _ in 0..strings_size` loop of `take_strings`. -/
def takeStringsLoop (order : ByteOrder) : Nat → List Nat →
    Except ServerCommandError (List RStr × List Nat)
  | 0, rem => .ok ([], rem)
  | n + 1, rem =>
    match takeString order rem with
    | .error e => .error e
    | .ok (s, rem') =>
      match takeStringsLoop order n rem' with
      | .error e => .error e
      | .ok (v, rem'') => .ok (s :: v, rem'')

/-- The `take_strings` closure: a dword count, then that many strings. -/
def takeStrings (order : ByteOrder) (rem : List Nat) :
    Except ServerCommandError (List RStr × List Nat) :=
  match takeDword order rem with
  | .error e => .error e
  | .ok (count, rem') => takeStringsLoop order count rem'

/-- The tag dispatch of `ServerCommand::from_bytes` (the source `match` over
the first byte, here over an equality chain, which is what a Rust integer
`match` denotes). Tags 9–11 are modelled from the spec (§3 tag table); every
other first byte answers `UnknownCommand`. -/
def decodePayload (order : ByteOrder) (ct : Nat) (rem : List Nat) :
    Except ServerCommandError (ServerCommand × List Nat) :=
  if ct = ServerCommand.idAbort then .ok (.abort, rem)
  else if ct = ServerCommand.idSetStatusOk then .ok (.setStatusOk, rem)
  else if ct = ServerCommand.idSetStatusError then
    match takeString order rem with
    | .error e => .error e
    | .ok (s, rem') => .ok (.setStatusError s, rem')
  else if ct = ServerCommand.idGetStatuses then
    match takeBool rem with
    | .error e => .error e
    | .ok (b, rem') => .ok (.getStatuses b, rem')
  else if ct = ServerCommand.idRefreshClientByName then
    match takeString order rem with
    | .error e => .error e
    | .ok (s, rem') => .ok (.refreshClientByName s, rem')
  else if ct = ServerCommand.idSetName then
    match takeString order rem with
    | .error e => .error e
    | .ok (s, rem') => .ok (.setName s, rem')
  else if ct = ServerCommand.idStatuses then
    match takeStrings order rem with
    | .error e => .error e
    | .ok (v, rem') => .ok (.statuses v, rem')
  else if ct = ServerCommand.idRefresh then .ok (.refresh, rem)
  else if ct = ServerCommand.idRefreshAllClients then .ok (.refreshAllClients, rem)
  else if ct = ServerCommand.idListClients then .ok (.listClients, rem)
  else if ct = ServerCommand.idClients then
    match takeStrings order rem with
    | .error e => .error e
    | .ok (v, rem') => .ok (.clients v, rem')
  else .error .unknownCommand

/-- `ServerCommand::from_bytes`, parameterized by the platform byte order the
source's `u32::from_ne_bytes` reads counts in: one tag byte, the tag's
payload, and the consumed-byte count (`bytes_used`). -/
def ServerCommand.fromBytesWith (order : ByteOrder) (bytes : List Nat) :
    Except ServerCommandError ServerCommandParse :=
  match takeBytes 1 bytes with
  | .error e => .error e
  | .ok (tagBytes, rem) =>
    match decodePayload order tagBytes.headI rem with
    | .error e => .error e
    | .ok (c, rem') => .ok ⟨c, bytes.length - rem'.length⟩

/-- A string payload a Rust `String` value can actually hold and the 32-bit
length prefix can describe: valid UTF-8 (the `String` type invariant) and
shorter than `2^32` bytes. -/
def strWf (s : RStr) : Bool := isValidUtf8 s && decide (s.length < 4294967296)

/-- All string payloads of the command are `strWf` and every string-vector
count fits the 32-bit wire count. -/
def ServerCommand.wf : ServerCommand → Bool
  | .setStatusError m => strWf m
  | .getStatuses _ => true
  | .refreshClientByName n => strWf n
  | .setName n => strWf n
  | .statuses v => decide (v.length < 4294967296) && v.all strWf
  | .clients v => decide (v.length < 4294967296) && v.all strWf
  | _ => true

/-! ## Codec lemmas: what each `take_*` primitive does on a (possibly cut)
encoding followed by arbitrary further bytes. -/

theorem takeBytes_one_cons (t : Nat) (x : List Nat) :
    takeBytes 1 (t :: x) = .ok ([t], x) := by
  simp [takeBytes]

theorem takeBytes_spec (a r : List Nat) (k : Nat) :
    takeBytes a.length ((a ++ r).take k) =
      if k < a.length then .error .tooFewBytes
      else .ok (a, r.take (k - a.length)) := by
  rw [List.take_append_eq_append_take]
  by_cases h : k < a.length
  · have h0 : k - a.length = 0 := by omega
    have h1 : (a.take k).length = k := List.length_take_of_le (by omega)
    rw [if_pos h, h0, List.take_zero, List.append_nil]
    simp only [takeBytes]
    rw [if_pos (show a.length > (a.take k).length by omega)]
  · rw [if_neg h, List.take_of_length_le (by omega)]
    simp only [takeBytes]
    rw [if_neg (by simp only [gt_iff_lt, List.length_append]; omega),
      List.take_left, List.drop_left]

theorem dwordOfBytes_toLE (n : Nat) :
    dwordOfBytes .littleEndian (toLEBytes4 n) = n % 4294967296 := by
  simp only [dwordOfBytes, toLEBytes4]
  omega

theorem takeDword_spec (n : Nat) (r : List Nat) (k : Nat) :
    takeDword .littleEndian ((toLEBytes4 n ++ r).take k) =
      if k < 4 then .error .tooFewBytes
      else .ok (n % 4294967296, r.take (k - 4)) := by
  have hb := takeBytes_spec (toLEBytes4 n) r k
  simp only [show (toLEBytes4 n).length = 4 from rfl] at hb
  by_cases h : k < 4
  · rw [if_pos h] at hb
    simp only [takeDword, hb, if_pos h]
  · rw [if_neg h] at hb
    simp only [takeDword, hb, dwordOfBytes_toLE, if_neg h]

theorem takeBool_spec (b : Bool) (r : List Nat) (k : Nat) :
    takeBool (([if b then 1 else 0] ++ r).take k) =
      if k < 1 then .error .tooFewBytes else .ok (b, r.take (k - 1)) := by
  cases b
  · show takeBool (([0] ++ r).take k) =
      if k < 1 then .error .tooFewBytes else .ok (false, r.take (k - 1))
    have hb := takeBytes_spec [0] r k
    simp only [List.length_singleton] at hb
    by_cases h : k < 1
    · rw [if_pos h] at hb
      simp only [takeBool, hb, if_pos h]
    · rw [if_neg h] at hb
      simp only [takeBool, hb, if_neg h]
  · show takeBool (([1] ++ r).take k) =
      if k < 1 then .error .tooFewBytes else .ok (true, r.take (k - 1))
    have hb := takeBytes_spec [1] r k
    simp only [List.length_singleton] at hb
    by_cases h : k < 1
    · rw [if_pos h] at hb
      simp only [takeBool, hb, if_pos h]
    · rw [if_neg h] at hb
      simp only [takeBool, hb, if_neg h]

theorem strWf_valid {s : RStr} (h : strWf s = true) : isValidUtf8 s = true := by
  simp only [strWf, Bool.and_eq_true] at h
  exact h.1

theorem strWf_len {s : RStr} (h : strWf s = true) : s.length < 4294967296 := by
  simp only [strWf, Bool.and_eq_true, decide_eq_true_eq] at h
  exact h.2

theorem appendString_length (s : RStr) : (appendString s).length = 4 + s.length := by
  simp only [appendString, toLEBytes4, List.length_append, List.length_cons,
    List.length_nil]

theorem takeString_spec (s : RStr) (hwf : strWf s = true) (r : List Nat) (k : Nat) :
    takeString .littleEndian ((appendString s ++ r).take k) =
      if k < 4 + s.length then .error .tooFewBytes
      else .ok (s, r.take (k - (4 + s.length))) := by
  rw [show appendString s ++ r = toLEBytes4 s.length ++ (s ++ r) by
    rw [appendString, List.append_assoc]]
  by_cases h4 : k < 4
  · have hd := takeDword_spec s.length (s ++ r) k
    rw [if_pos h4] at hd
    simp only [takeString, hd]
    rw [if_pos (by omega)]
  · have hd := takeDword_spec s.length (s ++ r) k
    rw [if_neg h4, Nat.mod_eq_of_lt (strWf_len hwf)] at hd
    have hbyt := takeBytes_spec s r (k - 4)
    by_cases hk : k < 4 + s.length
    · rw [if_pos (show k - 4 < s.length by omega)] at hbyt
      simp only [takeString, hd, hbyt]
      rw [if_pos hk]
    · rw [if_neg (show ¬k - 4 < s.length by omega)] at hbyt
      simp only [takeString, hd, hbyt]
      rw [if_pos (strWf_valid hwf), if_neg hk, Nat.sub_sub]

theorem takeStringsLoop_spec (v : List RStr) (hwf : v.all strWf = true)
    (r : List Nat) (k : Nat) :
    takeStringsLoop .littleEndian v.length ((stringsBody v ++ r).take k) =
      if k < (stringsBody v).length then .error .tooFewBytes
      else .ok (v, r.take (k - (stringsBody v).length)) := by
  induction v generalizing r k with
  | nil =>
    simp only [stringsBody, List.nil_append, List.length_nil, takeStringsLoop]
    rw [if_neg (by omega), Nat.sub_zero]
  | cons s tl ih =>
    have hs : strWf s = true := by
      simp only [List.all_cons, Bool.and_eq_true] at hwf
      exact hwf.1
    have htl : tl.all strWf = true := by
      simp only [List.all_cons, Bool.and_eq_true] at hwf
      exact hwf.2
    have hlen : (stringsBody (s :: tl)).length =
        4 + s.length + (stringsBody tl).length := by
      simp only [stringsBody, List.length_append, appendString_length]
    rw [show stringsBody (s :: tl) ++ r = appendString s ++ (stringsBody tl ++ r) by
      simp [stringsBody, List.append_assoc]]
    have hstr := takeString_spec s hs (stringsBody tl ++ r) k
    simp only [List.length_cons, takeStringsLoop]
    by_cases h1 : k < 4 + s.length
    · rw [if_pos h1] at hstr
      simp only [hstr]
      rw [if_pos (by omega)]
    · rw [if_neg h1] at hstr
      simp only [hstr]
      have ihh := ih htl r (k - (4 + s.length))
      by_cases h2 : k - (4 + s.length) < (stringsBody tl).length
      · rw [if_pos h2] at ihh
        simp only [ihh]
        rw [if_pos (by omega)]
      · rw [if_neg h2] at ihh
        simp only [ihh]
        rw [if_neg (by omega), Nat.sub_sub, hlen]

theorem appendStrings_length (v : List RStr) :
    (appendStrings v).length = 4 + (stringsBody v).length := by
  simp only [appendStrings, toLEBytes4, List.length_append, List.length_cons,
    List.length_nil]

theorem takeStrings_spec (v : List RStr) (hlen : v.length < 4294967296)
    (hwf : v.all strWf = true) (r : List Nat) (k : Nat) :
    takeStrings .littleEndian ((appendStrings v ++ r).take k) =
      if k < (appendStrings v).length then .error .tooFewBytes
      else .ok (v, r.take (k - (appendStrings v).length)) := by
  rw [show appendStrings v ++ r = toLEBytes4 v.length ++ (stringsBody v ++ r) by
    rw [appendStrings, List.append_assoc]]
  have hApp := appendStrings_length v
  by_cases h4 : k < 4
  · have hd := takeDword_spec v.length (stringsBody v ++ r) k
    rw [if_pos h4] at hd
    simp only [takeStrings, hd]
    rw [if_pos (by omega)]
  · have hd := takeDword_spec v.length (stringsBody v ++ r) k
    rw [if_neg h4, Nat.mod_eq_of_lt hlen] at hd
    simp only [takeStrings, hd]
    have hloop := takeStringsLoop_spec v hwf r (k - 4)
    by_cases hk : k < (appendStrings v).length
    · rw [if_pos (by omega)] at hloop
      simp only [hloop]
      rw [if_pos hk]
    · rw [if_neg (by omega)] at hloop
      simp only [hloop]
      rw [if_neg hk, Nat.sub_sub, hApp]

/-- Assembling `from_bytes` behaviour on a cut buffer from the behaviour of
the payload parser behind one tag byte. -/
theorem fromBytes_take_of_spec (t : Nat) (penc : List Nat) (F : ServerCommand)
    (hdis : ∀ (r : List Nat) (k : Nat),
      decodePayload .littleEndian t ((penc ++ r).take k) =
        if k < penc.length then .error .tooFewBytes
        else .ok (F, r.take (k - penc.length)))
    (r : List Nat) (k : Nat) :
    ServerCommand.fromBytesWith .littleEndian (((t :: penc) ++ r).take k) =
      if k < (t :: penc).length then .error .tooFewBytes
      else .ok ⟨F, (t :: penc).length⟩ := by
  cases k with
  | zero =>
    rw [List.take_zero, if_pos (by simp)]
    rfl
  | succ k' =>
    rw [List.cons_append, List.take_succ_cons]
    simp only [ServerCommand.fromBytesWith, takeBytes_one_cons, List.headI]
    rw [hdis r k']
    by_cases hk : k' < penc.length
    · rw [if_pos hk, if_pos (by simp only [List.length_cons]; omega)]
    · rw [if_neg hk, if_neg (by simp only [List.length_cons]; omega)]
      simp only [Except.ok.injEq, ServerCommandParse.mk.injEq, List.length_cons,
        List.length_take, List.length_append, true_and]
      omega

theorem payload_spec_const (t : Nat) (F : ServerCommand)
    (h : ∀ rem, decodePayload .littleEndian t rem = .ok (F, rem))
    (r : List Nat) (k : Nat) :
    decodePayload .littleEndian t ((([] : List Nat) ++ r).take k) =
      if k < ([] : List Nat).length then .error .tooFewBytes
      else .ok (F, r.take (k - ([] : List Nat).length)) := by
  rw [List.nil_append, h, List.length_nil, if_neg (by omega), Nat.sub_zero]

theorem payload_spec_string (t : Nat) (mk : RStr → ServerCommand)
    (hd : ∀ rem, decodePayload .littleEndian t rem =
      match takeString .littleEndian rem with
      | .error e => .error e
      | .ok (s, rem') => .ok (mk s, rem'))
    (s : RStr) (h : strWf s = true) (r : List Nat) (k : Nat) :
    decodePayload .littleEndian t ((appendString s ++ r).take k) =
      if k < (appendString s).length then .error .tooFewBytes
      else .ok (mk s, r.take (k - (appendString s).length)) := by
  have hs := takeString_spec s h r k
  rw [hd, appendString_length]
  by_cases hk : k < 4 + s.length
  · rw [if_pos hk] at hs
    rw [hs, if_pos hk]
  · rw [if_neg hk] at hs
    rw [hs, if_neg hk]

theorem payload_spec_strings (t : Nat) (mk : List RStr → ServerCommand)
    (hd : ∀ rem, decodePayload .littleEndian t rem =
      match takeStrings .littleEndian rem with
      | .error e => .error e
      | .ok (v, rem') => .ok (mk v, rem'))
    (v : List RStr) (hlen : v.length < 4294967296) (hwf : v.all strWf = true)
    (r : List Nat) (k : Nat) :
    decodePayload .littleEndian t ((appendStrings v ++ r).take k) =
      if k < (appendStrings v).length then .error .tooFewBytes
      else .ok (mk v, r.take (k - (appendStrings v).length)) := by
  have hs := takeStrings_spec v hlen hwf r k
  rw [hd]
  by_cases hk : k < (appendStrings v).length
  · rw [if_pos hk] at hs
    rw [hs, if_pos hk]
  · rw [if_neg hk] at hs
    rw [hs, if_neg hk]

theorem payload_spec_bool (r : List Nat) (k : Nat) (b : Bool) :
    decodePayload .littleEndian ServerCommand.idGetStatuses
        (([if b then 1 else 0] ++ r).take k) =
      if k < ([if b then 1 else 0] : List Nat).length then .error .tooFewBytes
      else .ok (.getStatuses b, r.take (k - ([if b then 1 else 0] : List Nat).length)) := by
  have hs := takeBool_spec b r k
  have hd : ∀ rem, decodePayload .littleEndian ServerCommand.idGetStatuses rem =
      match takeBool rem with
      | .error e => .error e
      | .ok (bb, rem') => .ok (.getStatuses bb, rem') := fun rem => rfl
  rw [hd, List.length_singleton]
  by_cases hk : k < 1
  · rw [if_pos hk] at hs
    rw [hs, if_pos hk]
  · rw [if_neg hk] at hs
    rw [hs, if_neg hk]

/-- `from_bytes` on any cut of `to_bytes F` followed by arbitrary bytes:
strictly inside the encoding the decoder answers `TooFewBytes`; from the full
encoding onwards it recovers exactly `F` and consumes exactly the encoding. -/
theorem fromBytes_take (F : ServerCommand) (h : F.wf = true) (r : List Nat) (k : Nat) :
    ServerCommand.fromBytesWith .littleEndian ((F.toBytes ++ r).take k) =
      if k < F.toBytes.length then .error .tooFewBytes
      else .ok ⟨F, F.toBytes.length⟩ := by
  cases F with
  | abort =>
    exact fromBytes_take_of_spec ServerCommand.idAbort [] .abort
      (payload_spec_const _ _ fun rem => rfl) r k
  | setStatusOk =>
    exact fromBytes_take_of_spec ServerCommand.idSetStatusOk [] .setStatusOk
      (payload_spec_const _ _ fun rem => rfl) r k
  | refresh =>
    exact fromBytes_take_of_spec ServerCommand.idRefresh [] .refresh
      (payload_spec_const _ _ fun rem => rfl) r k
  | refreshAllClients =>
    exact fromBytes_take_of_spec ServerCommand.idRefreshAllClients [] .refreshAllClients
      (payload_spec_const _ _ fun rem => rfl) r k
  | listClients =>
    exact fromBytes_take_of_spec ServerCommand.idListClients [] .listClients
      (payload_spec_const _ _ fun rem => rfl) r k
  | setStatusError m =>
    exact fromBytes_take_of_spec ServerCommand.idSetStatusError (appendString m)
      (.setStatusError m)
      (payload_spec_string ServerCommand.idSetStatusError .setStatusError (fun rem => rfl) m
        (by simpa [ServerCommand.wf] using h)) r k
  | refreshClientByName n =>
    exact fromBytes_take_of_spec ServerCommand.idRefreshClientByName (appendString n)
      (.refreshClientByName n)
      (payload_spec_string ServerCommand.idRefreshClientByName .refreshClientByName (fun rem => rfl) n
        (by simpa [ServerCommand.wf] using h)) r k
  | setName n =>
    exact fromBytes_take_of_spec ServerCommand.idSetName (appendString n)
      (.setName n)
      (payload_spec_string ServerCommand.idSetName .setName (fun rem => rfl) n
        (by simpa [ServerCommand.wf] using h)) r k
  | getStatuses b =>
    exact fromBytes_take_of_spec ServerCommand.idGetStatuses [if b then 1 else 0]
      (.getStatuses b) (fun rr kk => payload_spec_bool rr kk b) r k
  | statuses v =>
    simp only [ServerCommand.wf, Bool.and_eq_true, decide_eq_true_eq] at h
    exact fromBytes_take_of_spec ServerCommand.idStatuses (appendStrings v)
      (.statuses v)
      (payload_spec_strings ServerCommand.idStatuses .statuses (fun rem => rfl) v h.1 h.2) r k
  | clients v =>
    simp only [ServerCommand.wf, Bool.and_eq_true, decide_eq_true_eq] at h
    exact fromBytes_take_of_spec ServerCommand.idClients (appendStrings v)
      (.clients v)
      (payload_spec_strings ServerCommand.idClients .clients (fun rem => rfl) v h.1 h.2) r k

theorem takeBytes_exact (n : Nat) (a r : List Nat) (h : a.length = n) :
    takeBytes n (a ++ r) = .ok (a, r) := by
  subst h
  simp only [takeBytes]
  rw [if_neg (by simp only [gt_iff_lt, List.length_append]; omega),
    List.take_left, List.drop_left]

theorem takeBytes_zero (rem : List Nat) : takeBytes 0 rem = .ok ([], rem) := by
  simp [takeBytes]

/-- **C1** (amended): for every frame value whose string payloads are valid
UTF-8 (automatic for a Rust `String`) and shorter than `2^32` bytes, and whose
string-vector counts are below `2^32`, decoding the encoding succeeds with
exactly the frame and a `bytes_used` equal to the encoding's length, and
decoding any strict prefix of the encoding fails with `TooFewBytes`.
(The byte order is little-endian, i.e. the platform order on the targets the
source's `from_ne_bytes` round-trips on.) -/
theorem c1_roundtrip_and_cuts (F : ServerCommand) (h : F.wf = true) :
    ServerCommand.fromBytesWith .littleEndian F.toBytes =
      .ok ⟨F, F.toBytes.length⟩ ∧
    ∀ k, k < F.toBytes.length →
      ServerCommand.fromBytesWith .littleEndian (F.toBytes.take k) =
        .error .tooFewBytes := by
  constructor
  · have hm := fromBytes_take F h [] F.toBytes.length
    rw [List.append_nil, List.take_length, if_neg (by omega)] at hm
    exact hm
  · intro k hk
    have hm := fromBytes_take F h [] k
    rw [List.append_nil, if_pos hk] at hm
    exact hm

/-- Witness for C1 at the frame `Statuses(["err", "warn"])` (ASCII bytes),
including one strict prefix cut inside the first string. -/
theorem c1_roundtrip_witness :
    (ServerCommand.statuses [[101, 114, 114], [119, 97, 114, 110]]).wf = true ∧
    ServerCommand.fromBytesWith .littleEndian
        (ServerCommand.statuses [[101, 114, 114], [119, 97, 114, 110]]).toBytes =
      .ok ⟨ServerCommand.statuses [[101, 114, 114], [119, 97, 114, 110]],
        (ServerCommand.statuses [[101, 114, 114], [119, 97, 114, 110]]).toBytes.length⟩ ∧
    ServerCommand.fromBytesWith .littleEndian
        ((ServerCommand.statuses [[101, 114, 114], [119, 97, 114, 110]]).toBytes.take 7) =
      .error .tooFewBytes :=
  ⟨by decide,
    (c1_roundtrip_and_cuts (ServerCommand.statuses
      [[101, 114, 114], [119, 97, 114, 110]]) (by decide)).1,
    (c1_roundtrip_and_cuts (ServerCommand.statuses
      [[101, 114, 114], [119, 97, 114, 110]]) (by decide)).2 7 (by decide)⟩

/-- **C1** counterexample: a `SetStatusError` frame whose message is exactly
`2^32` bytes of `'a'` does not round-trip. `append_string` writes only the low
four bytes of the length (`.to_le_bytes()[0..4]`), which are all zero, so the
decoder reads back an empty message with `bytes_used = 5`, not the original
frame with the full encoded length. -/
theorem takeString_zero_len (r : List Nat) :
    takeString .littleEndian ([0, 0, 0, 0] ++ r) = .ok ([], r) := by
  simp only [takeString, takeDword, takeBytes_exact 4 [0, 0, 0, 0] r rfl]
  simp only [show dwordOfBytes .littleEndian [0, 0, 0, 0] = 0 from rfl, takeBytes_zero]
  rfl

theorem fromBytes_setStatusError_empty (r : List Nat) :
    ServerCommand.fromBytesWith .littleEndian (3 :: ([0, 0, 0, 0] ++ r)) =
      .ok ⟨.setStatusError [], 5⟩ := by
  have hdis : ∀ rem, decodePayload .littleEndian 3 rem =
      match takeString .littleEndian rem with
      | .error e => .error e
      | .ok (s, rem') => .ok (.setStatusError s, rem') := fun rem => rfl
  have h5 : (3 :: ([0, 0, 0, 0] ++ r) : List Nat).length - r.length = 5 := by
    simp only [List.length_cons, List.length_append, List.length_nil]
    omega
  simp only [ServerCommand.fromBytesWith, takeBytes_one_cons, List.headI, hdis,
    takeString_zero_len]
  rw [h5]

theorem c1_counterexample :
    ServerCommand.fromBytesWith .littleEndian
        (ServerCommand.toBytes (.setStatusError (List.replicate 4294967296 97))) ≠
      .ok ⟨.setStatusError (List.replicate 4294967296 97),
        (ServerCommand.toBytes
          (.setStatusError (List.replicate 4294967296 97))).length⟩ := by
  intro heq
  have h1 : (List.replicate 4294967296 (97 : Nat)).length = 4294967296 :=
    List.length_replicate _ _
  have h2 : toLEBytes4 (List.replicate 4294967296 (97 : Nat)).length = [0, 0, 0, 0] := by
    rw [h1]
    norm_num [toLEBytes4]
  have henc : ServerCommand.toBytes (.setStatusError (List.replicate 4294967296 97)) =
      3 :: ([0, 0, 0, 0] ++ List.replicate 4294967296 97) := by
    have hx : ServerCommand.toBytes (.setStatusError (List.replicate 4294967296 97)) =
        3 :: (toLEBytes4 (List.replicate 4294967296 (97 : Nat)).length ++
          List.replicate 4294967296 97) := rfl
    rw [hx, h2]
  rw [henc, fromBytes_setStatusError_empty] at heq
  simp only [Except.ok.injEq, ServerCommandParse.mk.injEq] at heq
  have hcmd := heq.1
  injection hcmd with hnil
  have hL := congrArg List.length hnil
  rw [List.length_nil, h1] at hL
  exact absurd hL (by norm_num)

/-- **C2**: the decoder accepts exactly the tag bytes 1–11 (tag 9 decodes to
`RefreshAllClients`, 10 to `ListClients`, 11 to `Clients`), and every buffer
whose first byte is outside `1..=11` fails with the unknown-tag error.
Tags 9–11 are settled against the spec-modelled extension of the codec, the
source common crate being behind its callers. -/
theorem c2_tag_table :
    (∀ b rest, b = 0 ∨ 11 < b →
      ServerCommand.fromBytesWith .littleEndian (b :: rest) =
        .error .unknownCommand) ∧
    ServerCommand.fromBytesWith .littleEndian [1] = .ok ⟨.abort, 1⟩ ∧
    ServerCommand.fromBytesWith .littleEndian [2] = .ok ⟨.setStatusOk, 1⟩ ∧
    ServerCommand.fromBytesWith .littleEndian [3, 0, 0, 0, 0] =
      .ok ⟨.setStatusError [], 5⟩ ∧
    ServerCommand.fromBytesWith .littleEndian [4, 1] = .ok ⟨.getStatuses true, 2⟩ ∧
    ServerCommand.fromBytesWith .littleEndian [5, 0, 0, 0, 0] =
      .ok ⟨.refreshClientByName [], 5⟩ ∧
    ServerCommand.fromBytesWith .littleEndian [6, 0, 0, 0, 0] =
      .ok ⟨.setName [], 5⟩ ∧
    ServerCommand.fromBytesWith .littleEndian [7, 0, 0, 0, 0] =
      .ok ⟨.statuses [], 5⟩ ∧
    ServerCommand.fromBytesWith .littleEndian [8] = .ok ⟨.refresh, 1⟩ ∧
    ServerCommand.fromBytesWith .littleEndian [9] = .ok ⟨.refreshAllClients, 1⟩ ∧
    ServerCommand.fromBytesWith .littleEndian [10] = .ok ⟨.listClients, 1⟩ ∧
    ServerCommand.fromBytesWith .littleEndian [11, 0, 0, 0, 0] =
      .ok ⟨.clients [], 5⟩ := by
  refine ⟨?_, by decide, by decide, by decide, by decide, by decide, by decide,
    by decide, by decide, by decide, by decide, by decide⟩
  intro b rest hb
  simp only [ServerCommand.fromBytesWith, takeBytes_one_cons, List.headI]
  have hstep : decodePayload .littleEndian b rest = .error .unknownCommand := by
    unfold decodePayload
    rw [if_neg (by simp only [ServerCommand.idAbort]; omega),
      if_neg (by simp only [ServerCommand.idSetStatusOk]; omega),
      if_neg (by simp only [ServerCommand.idSetStatusError]; omega),
      if_neg (by simp only [ServerCommand.idGetStatuses]; omega),
      if_neg (by simp only [ServerCommand.idRefreshClientByName]; omega),
      if_neg (by simp only [ServerCommand.idSetName]; omega),
      if_neg (by simp only [ServerCommand.idStatuses]; omega),
      if_neg (by simp only [ServerCommand.idRefresh]; omega),
      if_neg (by simp only [ServerCommand.idRefreshAllClients]; omega),
      if_neg (by simp only [ServerCommand.idListClients]; omega),
      if_neg (by simp only [ServerCommand.idClients]; omega)]
  rw [hstep]

/-- Witness for C2's universal part at the concrete out-of-range tags 0
and 255. -/
theorem c2_tag_table_witness :
    ((0 : Nat) = 0 ∨ 11 < (0 : Nat)) ∧ ((255 : Nat) = 0 ∨ 11 < (255 : Nat)) ∧
    ServerCommand.fromBytesWith .littleEndian (0 :: []) = .error .unknownCommand ∧
    ServerCommand.fromBytesWith .littleEndian (255 :: [7, 7]) =
      .error .unknownCommand :=
  ⟨Or.inl rfl, Or.inr (by decide), c2_tag_table.1 0 [] (Or.inl rfl),
    c2_tag_table.1 255 [7, 7] (Or.inr (by decide))⟩

/-- **C9**: the encoder always writes counts little-endian (`to_le_bytes`),
but the decoder reassembles them with `u32::from_ne_bytes`, i.e. in the
platform's byte order. On a little-endian platform `SetName("ab")`
round-trips; on a big-endian platform the same buffer's length field reads as
`33554432` and decoding fails with `TooFewBytes`, so the multi-byte integers
are *not* read little-endian on every platform. -/
theorem c9_endianness_divergence :
    ServerCommand.toBytes (.setName [97, 98]) = [6, 2, 0, 0, 0, 97, 98] ∧
    ServerCommand.fromBytesWith .littleEndian [6, 2, 0, 0, 0, 97, 98] =
      .ok ⟨.setName [97, 98], 7⟩ ∧
    ServerCommand.fromBytesWith .bigEndian [6, 2, 0, 0, 0, 97, 98] =
      .error .tooFewBytes ∧
    dwordOfBytes .littleEndian [2, 0, 0, 0] = 2 ∧
    dwordOfBytes .bigEndian [2, 0, 0, 0] = 33554432 :=
  ⟨by decide, by decide, by decide, by decide, by decide⟩

/-! ## Server model: per-connection client state and task communication
(`server/src/client_state.rs`, `server/src/task_communication.rs`). -/

/-- Rust `Result<(), String>`: `Ok(())` or `Err(message)`. -/
abbrev RStatus := Except RStr Unit

/-- `TaskMessage` from `task_communication.rs`. A `Sender<TaskMessage>` reply
handle is modelled by the numeric id of the task it delivers to. -/
inductive TaskMessage
  | readMessageRequest (sender : Nat)
  | readMessageResponse (status : RStatus) (name : RStr)
  | refreshByName (name : RStr)
  | refreshAll
  | listClientsRequest (sender : Nat)
  | listClientsResponse (name : RStr)
  deriving DecidableEq, Repr

/-- `ClientState` from `client_state.rs`: the per-connection mutable state.
The bounded mpsc channel pair `messages_to_send_queue` is modelled by the list
of queued frames (`push_command_to_send` appends, `get_command_to_send` pops
the front). -/
structure ClientState where
  logEveryStatus : Bool
  name : Option RStr
  status : RStatus
  messagesToSend : List ServerCommand
  deriving DecidableEq, Repr

/-- `ClientState::new(log_every_status)`. -/
def ClientState.new (logEveryStatus : Bool) : ClientState :=
  ⟨logEveryStatus, none, .ok (), []⟩

/-- `ClientState::get_name_for_logging` (called `get_name_or_default` at its
use sites — the source carries a `TODO rename`): the set name, or the literal
`<Unknown>`. -/
def ClientState.getNameForLogging (s : ClientState) : RStr :=
  s.name.getD (asciiBytes "<Unknown>")

/-- `ClientState::push_command_to_send`: enqueue on the outbound queue. -/
def ClientState.pushCommandToSend (s : ClientState) (c : ServerCommand) : ClientState :=
  { s with messagesToSend := s.messagesToSend ++ [c] }

/-- `TaskCommunication::process_task_message`. The returned pair is the
updated state and the reply messages unicast to reply handles; `none` models
the `panic!("Unexpected task message")` arms. -/
def processTaskMessage (msg : TaskMessage) (s : ClientState) :
    Option (ClientState × List (Nat × TaskMessage)) :=
  match msg with
  | .readMessageResponse _ _ => none
  | .readMessageRequest sender =>
    some (s, [(sender, .readMessageResponse s.status s.getNameForLogging)])
  | .refreshByName n =>
    match s.name with
    | some currentName =>
      if currentName = n then some (s.pushCommandToSend .refresh, []) else some (s, [])
    | none => some (s, [])
  | .refreshAll => some (s.pushCommandToSend .refresh, [])
  | .listClientsRequest sender =>
    some (s, [(sender, .listClientsResponse s.getNameForLogging)])
  | .listClientsResponse _ => none

/-- `data.iter().filter(|(id, _)| **id != task_id).count()`: the number of
registry-snapshot entries other than the requester itself. -/
def peerCount (snapshot : List Nat) (taskId : Nat) : Nat :=
  (snapshot.filter (fun id => id != taskId)).length

/-- The `collect` loop of `TaskCommunication::collect`: read exactly
`tasksCount` messages from the local inbox. `delivered` lists every message
that will ever arrive there. While collecting, the channel cannot close (the
collector itself keeps a live `Sender` clone), so when fewer than
`tasksCount` messages ever arrive the `receiver.recv().await` suspends
forever: modelled as `none`. The source's own TODO comment records exactly
this deadlock. -/
def collect : Nat → List TaskMessage → Option (List TaskMessage)
  | 0, _ => some []
  | _ + 1, [] => none
  | n + 1, m :: ms => (collect n ms).map (fun v => m :: v)

/-- The `filter_map` of `TaskCommunication::read_messages`: keep an entry per
`ReadMessageResponse` carrying an `Err`, formatted `"<name>: <msg>"` when
`include_names` is set; `none` models the `panic!("Unexpected message
received")` arm. -/
def filterMapStatuses (includeNames : Bool) : List TaskMessage → Option (List RStr)
  | [] => some []
  | m :: ms =>
    match m with
    | .readMessageResponse st nm =>
      match st with
      | .ok _ => filterMapStatuses includeNames ms
      | .error msg =>
        (filterMapStatuses includeNames ms).map
          (fun tl => (if includeNames then nm ++ asciiBytes ": " ++ msg else msg) :: tl)
    | _ => none

/-- `TaskCommunication::read_messages`: broadcast a `ReadMessageRequest`,
collect `peerCount` replies from the local inbox, and keep the error
entries. -/
def readMessages (taskId : Nat) (snapshot : List Nat) (delivered : List TaskMessage)
    (includeNames : Bool) : Option (List RStr) :=
  (collect (peerCount snapshot taskId) delivered).bind (filterMapStatuses includeNames)

/-- The `filter_map` of `TaskCommunication::list_clients`: keep every
`ListClientsResponse` name; `none` models the panic arm. -/
def filterMapClients : List TaskMessage → Option (List RStr)
  | [] => some []
  | .listClientsResponse nm :: ms => (filterMapClients ms).map (fun tl => nm :: tl)
  | _ :: _ => none

/-- `TaskCommunication::list_clients`: broadcast a `ListClientsRequest`,
collect `peerCount` replies, and keep the carried names. -/
def listClients (taskId : Nat) (snapshot : List Nat) (delivered : List TaskMessage) :
    Option (List RStr) :=
  (collect (peerCount snapshot taskId) delivered).bind filterMapClients

/-- Modelled from the spec: the server's dispatch of a `ListClients` frame is
absent from the source tree (`execute_command_from_client` in
`server/src/main.rs` has no `ListClients` arm although the client sends the
frame and `task_communication.rs` collects the replies). Per §4.6 the reply
names are every collected `ListResponse(name)` plus the local client's own
name. -/
def executeListClients (s : ClientState) (taskId : Nat) (snapshot : List Nat)
    (delivered : List TaskMessage) : Option (List RStr) :=
  (listClients taskId snapshot delivered).map
    (fun names => names ++ [s.getNameForLogging])

/-- `ProcessCommandResult` from `client_state.rs`. `Ok`, `GetStatuses` and
`RefreshClientByName` appear in the source enum; `RefreshAllClients` is
declared by its use in `server/src/main.rs`, and `ListClients` is modelled
from the spec's `NeedClientList` reaction (§4.3), the source enum being
behind its caller. -/
inductive ProcessCommandResult
  | ok
  | getStatuses (includeNames : Bool)
  | refreshClientByName (name : RStr)
  | refreshAllClients
  | listClients
  deriving DecidableEq, Repr

/-- Outcome of `ClientState::process_command`: normal return with the updated
state, the `println!` lines emitted, and the returned reaction; process exit
(the `Abort` arm calls `std::process::exit(0)` after logging); or a `panic!`
arm. -/
inductive CommandOutcome
  | proceed (state : ClientState) (logs : List RStr) (result : ProcessCommandResult)
  | exited (code : Nat) (logs : List RStr)
  | panicked
  deriving DecidableEq, Repr

/-- `Result::is_err` on a status. -/
def statusIsErr : RStatus → Bool
  | .ok _ => false
  | .error _ => true

/-- `ClientState::process_command`. Arms for the eight source commands are
translated from `client_state.rs`; the `RefreshAllClients` and `ListClients`
arms (and the `Clients` panic arm) are modelled from the spec (§4.3), the
source file predating its callers. -/
def ClientState.processCommand (s : ClientState) (c : ServerCommand) : CommandOutcome :=
  match c with
  | .abort => .exited 0 [asciiBytes "Received abort command"]
  | .setStatusOk =>
    let logs := if s.logEveryStatus || statusIsErr s.status then
        [asciiBytes "Client " ++ s.getNameForLogging ++ asciiBytes " is ok"]
      else []
    .proceed { s with status := .ok () } logs .ok
  | .setStatusError newErr =>
    let isNewError := match s.status with
      | .ok _ => true
      | .error oldErr => oldErr ≠ newErr
    let logs := if s.logEveryStatus || isNewError then
        [asciiBytes "Client " ++ s.getNameForLogging ++ asciiBytes " has error: " ++ newErr]
      else []
    .proceed { s with status := .error newErr } logs .ok
  | .getStatuses includeNames => .proceed s [] (.getStatuses includeNames)
  | .refreshClientByName n => .proceed s [] (.refreshClientByName n)
  | .setName n => .proceed { s with name := some n } [asciiBytes "Name set to " ++ n] .ok
  | .statuses _ => .panicked
  | .refresh => .panicked
  | .refreshAllClients => .proceed s [] .refreshAllClients
  | .listClients => .proceed s [] .listClients
  | .clients _ => .panicked

/-- Apply a list of inbound frames in wire order, accumulating the emitted
log lines; `none` when an exit or panic arm is reached. -/
def runCommands : ClientState → List ServerCommand → Option (ClientState × List RStr)
  | s, [] => some (s, [])
  | s, c :: cs =>
    match s.processCommand c with
    | .proceed s' logs _ => (runCommands s' cs).map (fun p => (p.1, logs ++ p.2))
    | _ => none

/-! ## Coordination lemmas and claims C3–C6 -/

theorem collect_full (l : List TaskMessage) : collect l.length l = some l := by
  induction l with
  | nil => rfl
  | cons m ms ih => simp [collect, List.length_cons, ih]

/-- **C3** (code-bug evidence): with a registry snapshot holding the
requester (task 0) and one peer (task 1) that never answers, both
collect-style operations wait for `peer_count = 1` inbox messages while none
ever arrives, so the `recv().await` loop suspends forever (`none`): neither a
deadline nor a reconciled count bounds the wait, contradicting the claim. -/
theorem c3_collect_blocks :
    peerCount [0, 1] 0 = 1 ∧
    collect (peerCount [0, 1] 0) [] = none ∧
    readMessages 0 [0, 1] [] false = none ∧
    listClients 0 [0, 1] [] = none :=
  ⟨rfl, rfl, rfl, rfl⟩

/-- **C4**: on `RefreshByName(n)` a handler appends a `Refresh` frame to its
own outbound queue iff its stored name is set and equals `n` (a handler with
no name set never enqueues one), and on `RefreshAll` it unconditionally
appends exactly one `Refresh` frame; neither message makes it reply to
anyone. -/
theorem c4_refresh_enqueue (s : ClientState) (n : RStr) :
    (processTaskMessage (.refreshByName n) s).map (fun p => (p.1.messagesToSend, p.2)) =
      some ((if s.name = some n then s.messagesToSend ++ [.refresh]
        else s.messagesToSend), ([] : List (Nat × TaskMessage))) ∧
    (processTaskMessage .refreshAll s).map (fun p => (p.1.messagesToSend, p.2)) =
      some (s.messagesToSend ++ [.refresh], []) := by
  refine ⟨?_, rfl⟩
  cases hn : s.name with
  | none =>
    simp [processTaskMessage, hn]
  | some cur =>
    by_cases hc : cur = n
    · simp [processTaskMessage, hn, hc, ClientState.pushCommandToSend]
    · simp [processTaskMessage, hn, hc]

theorem filterMapStatuses_map (b : Bool) (rs : List (RStatus × RStr)) :
    filterMapStatuses b (rs.map (fun p => TaskMessage.readMessageResponse p.1 p.2)) =
      some (rs.filterMap (fun p =>
        match p.1 with
        | .ok _ => none
        | .error msg =>
          some (if b then p.2 ++ asciiBytes ": " ++ msg else msg))) := by
  induction rs with
  | nil => rfl
  | cons p ps ih =>
    cases hst : p.1 with
    | ok u => simp [filterMapStatuses, List.filterMap_cons, hst, ih]
    | error msg => simp [filterMapStatuses, List.filterMap_cons, hst, ih]

/-- **C5**: over any collected multiset of `StatusResponse(status, name)`
replies, the read-statuses result keeps exactly the `Err(msg)` entries — none
for `Ok` — and formats each kept entry as `"<name>: <msg>"` when
`include_names` is set and as `msg` alone otherwise. -/
theorem c5_read_statuses (includeNames : Bool) (taskId : Nat) (snapshot : List Nat)
    (rs : List (RStatus × RStr)) (h : peerCount snapshot taskId = rs.length) :
    readMessages taskId snapshot
        (rs.map (fun p => TaskMessage.readMessageResponse p.1 p.2)) includeNames =
      some (rs.filterMap (fun p =>
        match p.1 with
        | .ok _ => none
        | .error msg =>
          some (if includeNames then p.2 ++ asciiBytes ": " ++ msg else msg))) := by
  unfold readMessages
  rw [h, show rs.length =
    (rs.map (fun p => TaskMessage.readMessageResponse p.1 p.2)).length from
    (List.length_map _ _).symm, collect_full]
  simp only [Option.some_bind]
  exact filterMapStatuses_map includeNames rs

/-- Witness for C5: two peers, one `Err("a")` from a watcher named `"w"` and
one `Ok` from a watcher named `"x"`, with names included. -/
theorem c5_read_statuses_witness :
    peerCount [0, 1, 2] 0 =
      ([((.error [97] : RStatus), [119]), ((.ok () : RStatus), [120])] :
        List (RStatus × RStr)).length ∧
    readMessages 0 [0, 1, 2]
        (([((.error [97] : RStatus), [119]), ((.ok () : RStatus), [120])] :
          List (RStatus × RStr)).map
          (fun p => TaskMessage.readMessageResponse p.1 p.2)) true =
      some (([((.error [97] : RStatus), [119]), ((.ok () : RStatus), [120])] :
          List (RStatus × RStr)).filterMap
        (fun p =>
          match p.1 with
          | .ok _ => none
          | .error msg => some (if true then p.2 ++ asciiBytes ": " ++ msg else msg))) :=
  ⟨by decide,
    c5_read_statuses true 0 [0, 1, 2]
      [((.error [97] : RStatus), [119]), ((.ok () : RStatus), [120])] (by decide)⟩

theorem filterMapClients_map (names : List RStr) :
    filterMapClients (names.map TaskMessage.listClientsResponse) = some names := by
  induction names with
  | nil => rfl
  | cons nm tl ih => simp [filterMapClients, ih]

/-- **C6** (spec-modelled dispatch): the list-clients reply contains the name
carried by every collected `ListResponse` and additionally contains the
requesting connection's own client name (`<Unknown>` when unset). -/
theorem c6_list_clients (s : ClientState) (taskId : Nat) (snapshot : List Nat)
    (names : List RStr) (h : peerCount snapshot taskId = names.length) :
    ∃ result, executeListClients s taskId snapshot
        (names.map TaskMessage.listClientsResponse) = some result ∧
      (∀ nm ∈ names, nm ∈ result) ∧ s.getNameForLogging ∈ result := by
  refine ⟨names ++ [s.getNameForLogging], ?_, ?_, ?_⟩
  · unfold executeListClients listClients
    rw [h, show names.length =
      (names.map TaskMessage.listClientsResponse).length from
      (List.length_map _ _).symm, collect_full]
    simp only [Option.some_bind, filterMapClients_map, Option.map_some]
    rfl
  · intro nm hm
    exact List.mem_append_left _ hm
  · exact List.mem_append_right _ (List.mem_singleton_self _)

/-- Witness for C6: requester task 5 (unnamed, so `<Unknown>`), snapshot
`{5, 9}`, one collected name `"hi"`. -/
theorem c6_list_clients_witness :
    peerCount [5, 9] 5 = ([[104, 105]] : List RStr).length ∧
    ∃ result, executeListClients (ClientState.new false) 5 [5, 9]
        (([[104, 105]] : List RStr).map TaskMessage.listClientsResponse) = some result ∧
      (∀ nm ∈ ([[104, 105]] : List RStr), nm ∈ result) ∧
      (ClientState.new false).getNameForLogging ∈ result :=
  ⟨by decide, c6_list_clients (ClientState.new false) 5 [5, 9] [[104, 105]] (by decide)⟩

/-! ## Claims C8 and C10: client-state frame effects -/

/-- The status a `SetStatusOk` / `SetStatusError(m)` frame stores. -/
def commandStatus : ServerCommand → Option RStatus
  | .setStatusOk => some (.ok ())
  | .setStatusError m => some (.error m)
  | _ => none

/-- One `SetStatus*` frame stores its status and logs exactly one line when
the server logs every status or the stored status changes, none otherwise. -/
theorem processCommand_status (s : ClientState) (cmd : ServerCommand) (target : RStatus)
    (h : commandStatus cmd = some target) :
    ∃ logs, s.processCommand cmd = .proceed { s with status := target } logs .ok ∧
      logs.length = if s.logEveryStatus = true ∨ ¬s.status = target then 1 else 0 := by
  cases cmd
  case setStatusOk =>
    simp only [commandStatus] at h
    injection h with h
    subst h
    refine ⟨_, rfl, ?_⟩
    cases hle : s.logEveryStatus
    · cases hst : s.status with
      | ok u =>
        cases u
        simp [statusIsErr, hst, hle]
      | error m => simp [statusIsErr, hst, hle]
    · simp [hle]
  case setStatusError m =>
    simp only [commandStatus] at h
    injection h with h
    subst h
    refine ⟨_, rfl, ?_⟩
    cases hle : s.logEveryStatus
    · cases hst : s.status with
      | ok u =>
        cases u
        simp [hst, hle]
      | error oldErr =>
        by_cases he : oldErr = m
        · simp [hst, hle, he]
        · simp [hst, hle, he]
    · simp [hle]
  all_goals exact absurd h (by simp [commandStatus])

/-- Repeating the same `SetStatus*` frame from a state that already stores
its status leaves the state unchanged and logs once per frame exactly when
`log_every_status` is set. -/
theorem runCommands_steady (s : ClientState) (cmd : ServerCommand) (target : RStatus)
    (h : commandStatus cmd = some target) (hst : s.status = target) (k : Nat) :
    ∃ logs, runCommands s (List.replicate k cmd) = some (s, logs) ∧
      logs.length = if s.logEveryStatus = true then k else 0 := by
  induction k with
  | zero => exact ⟨[], rfl, by simp⟩
  | succ k ih =>
    obtain ⟨logs1, hp, hlen1⟩ := processCommand_status s cmd target h
    have hself : { s with status := target } = s := by rw [← hst]
    rw [hself] at hp
    obtain ⟨logs2, hrun, hlen2⟩ := ih
    refine ⟨logs1 ++ logs2, ?_, ?_⟩
    · rw [List.replicate_succ]
      simp only [runCommands, hp, hrun]
      rfl
    · rw [List.length_append, hlen1, hlen2]
      cases hle : s.logEveryStatus
      · simp [hst, hle]
      · simp [hle]
        omega

/-- **C8**: a sequence of `n` identical `SetStatusOk` or `SetStatusError(m)`
frames on one connection produces exactly `n` log lines when
`log_every_status` is set, and otherwise logs only on the status transition:
one line when the sequence is nonempty and starts from a different status,
zero lines otherwise. -/
theorem c8_idempotent_logging (s : ClientState) (cmd : ServerCommand) (target : RStatus)
    (n : Nat) (h : commandStatus cmd = some target) :
    ∃ s' logs, runCommands s (List.replicate n cmd) = some (s', logs) ∧
      (s.logEveryStatus = true → logs.length = n) ∧
      (s.logEveryStatus = false →
        logs.length = if n = 0 ∨ s.status = target then 0 else 1) := by
  cases n with
  | zero => exact ⟨s, [], rfl, fun _ => rfl, fun _ => by simp⟩
  | succ k =>
    obtain ⟨logs1, hp, hlen1⟩ := processCommand_status s cmd target h
    obtain ⟨logs2, hrun, hlen2⟩ :=
      runCommands_steady { s with status := target } cmd target h rfl k
    refine ⟨{ s with status := target }, logs1 ++ logs2, ?_, ?_, ?_⟩
    · rw [List.replicate_succ]
      simp only [runCommands, hp, hrun]
      rfl
    · intro hle
      rw [List.length_append, hlen1, hlen2]
      simp only at hlen2
      simp [hle]
      omega
    · intro hle
      rw [List.length_append, hlen1, hlen2]
      by_cases hst : s.status = target
      · simp [hle, hst]
      · simp [hle, hst]

/-- Witness for C8: three `SetStatusOk` frames on a fresh connection with
`log_every_status = false` and default status `Ok` produce zero log lines. -/
theorem c8_idempotent_logging_witness :
    commandStatus .setStatusOk = some (.ok ()) ∧
    ∃ s' logs,
      runCommands (ClientState.new false) (List.replicate 3 .setStatusOk) =
        some (s', logs) ∧
      ((ClientState.new false).logEveryStatus = true → logs.length = 3) ∧
      ((ClientState.new false).logEveryStatus = false →
        logs.length = if 3 = 0 ∨ (ClientState.new false).status = .ok () then 0 else 1) :=
  ⟨rfl, c8_idempotent_logging (ClientState.new false) .setStatusOk (.ok ()) 3 rfl⟩

/-- **C10**: a `SetName(n)` frame sets the name to `Some(n)` (overwriting any
previous one) and changes nothing else: status, `log_every_status` and the
outbound queue are untouched, and the returned reaction (`Ok`) requests no
coordination operation. -/
theorem c10_set_name_only (s : ClientState) (n : RStr) :
    ∃ s' logs, s.processCommand (.setName n) = .proceed s' logs .ok ∧
      s'.name = some n ∧ s'.status = s.status ∧
      s'.logEveryStatus = s.logEveryStatus ∧
      s'.messagesToSend = s.messagesToSend :=
  ⟨{ s with name := some n }, [asciiBytes "Name set to " ++ n], rfl, rfl, rfl, rfl, rfl⟩

/-! ## Watcher output classification (`client/src/action/watch_action.rs`)
and claim C7 -/

/-- `WatchMode` from `watch_action.rs`. The source doc comment on
`OneLineErrorExitCode` reads: exit code 0 means success; for any other exit
code the first non-empty stdout line is the error message, and "if there are
no non-empty lines, error message is composed as for ExitCode". -/
inductive WatchMode
  | oneLineError
  | multiLineError
  | exitCode
  | oneLineErrorExitCode
  deriving DecidableEq, Repr

/-- `ExecuteCommandOutput` from `watch_action.rs`: whether the child process
ran, its exit code when available, and the captured stdout text. -/
structure ExecuteCommandOutput where
  executed : Bool
  status : Option Int
  text : List Char
  deriving DecidableEq, Repr

/-- Rust `char::is_whitespace`: the Unicode `White_Space` property. -/
def rustIsWhitespace (c : Char) : Bool :=
  let n := c.toNat
  (0x09 ≤ n && n ≤ 0x0D) || n = 0x20 || n = 0x85 || n = 0xA0 || n = 0x1680 ||
    (0x2000 ≤ n && n ≤ 0x200A) || n = 0x2028 || n = 0x2029 || n = 0x202F ||
    n = 0x205F || n = 0x3000

/-- Rust `str::trim`: strip `White_Space` characters from both ends. -/
def rustTrim (s : List Char) : List Char :=
  ((s.dropWhile rustIsWhitespace).reverse.dropWhile rustIsWhitespace).reverse

/-- Split at every `'\n'` (`n` newline bytes produce `n + 1` parts). -/
def splitNl : List Char → List (List Char)
  | [] => [[]]
  | c :: rest =>
    if c = '\n' then [] :: splitNl rest
    else
      match splitNl rest with
      | [] => [[c]]
      | p :: ps => (c :: p) :: ps

/-- Strip one trailing carriage return (so `\r\n` also ends a line). -/
def stripCr (l : List Char) : List Char :=
  match l.getLast? with
  | some c => if c = '\r' then l.dropLast else l
  | none => l

/-- Rust `str::lines`: split at `'\n'`, accept `\r\n` endings, and produce no
final empty line for a trailing newline. -/
def rustLines (s : List Char) : List (List Char) :=
  if s = [] then []
  else
    let parts := splitNl s
    let parts := if parts.getLast? = some [] then parts.dropLast else parts
    parts.map stripCr

/-- The `process_one_line_error` closure: the first line whose trimmed
content is non-empty, trimmed, as the error message; no such line → `Ok`. -/
def processOneLineError (text : List Char) : Except (List Char) Unit :=
  match (rustLines text).filter (fun l => !(rustTrim l).isEmpty) with
  | [] => .ok ()
  | l :: _ => .error (rustTrim l)

/-- The `process_multi_line_error` closure: every line with non-empty trimmed
content, trimmed and joined by `'\n'`; none → `Ok`. -/
def processMultiLineError (text : List Char) : Except (List Char) Unit :=
  let commandOutput :=
    ((rustLines text).filter (fun l => !(rustTrim l).isEmpty)).map rustTrim
  if commandOutput.isEmpty then .ok ()
  else .error (List.intercalate ['\n'] commandOutput)

/-- The `process_exit_code` closure. -/
def processExitCode (code : Int) : Except (List Char) Unit :=
  if code = 0 then .ok ()
  else .error ("Exit code was ".data ++ (toString code).data)

/-- `Action::process_command_output` from `watch_action.rs`. -/
def processCommandOutput (output : ExecuteCommandOutput) (watchMode : WatchMode) :
    Except (List Char) Unit :=
  if output.executed = false then
    .error ("Command was not executed. ".data ++ output.text)
  else
    match watchMode with
    | .oneLineError => processOneLineError output.text
    | .multiLineError => processMultiLineError output.text
    | .exitCode =>
      match output.status with
      | none => .error "Exit code is not available".data
      | some x => processExitCode x
    | .oneLineErrorExitCode =>
      match output.status with
      | none => .error "Exit code is not available".data
      | some x => if x ≠ 0 then processOneLineError output.text else processExitCode x

/-- **C7** (code-bug evidence): in `OneLineErrorExitCode` mode the absent,
zero and nonzero-with-output arms behave as claimed, but a nonzero exit code
with no non-empty stdout line is classified `Ok` by the source (the guard
`Some(x) if x != 0` routes to `process_one_line_error`, which returns `Ok` on
empty output) although the claim — and the source's own doc comment on the
mode — require `Error("Exit code was 10")`. -/
theorem c7_one_line_exit_code_divergence :
    processCommandOutput ⟨true, none, ['h', 'i']⟩ .oneLineErrorExitCode =
      .error "Exit code is not available".data ∧
    processCommandOutput ⟨true, some 0, ['h', 'i']⟩ .oneLineErrorExitCode = .ok () ∧
    processCommandOutput ⟨true, some 10, ['h', 'i']⟩ .oneLineErrorExitCode =
      .error ['h', 'i'] ∧
    processCommandOutput ⟨true, some 10, []⟩ .oneLineErrorExitCode = .ok () ∧
    processCommandOutput ⟨true, some 10, []⟩ .oneLineErrorExitCode ≠
      .error "Exit code was 10".data := by
  refine ⟨?_, ?_, ?_, ?_, ?_⟩ <;> decide

end CheckMate

